import Mathlib

/-!
# Particle field renderer and typed-text loop of `jsscript.js`

A shallow embedding of two functions of `src/jsscript.js`:

* `initParticles` (lines 343-372): the closure state it builds, its resize
  listener and its per-frame `draw`;
* `typeLoop` (lines 132-148): the `tick` state machine.

Modelling conventions.

* JavaScript numbers that hold particle coordinates, velocities, radii and
  opacities are rationals, the finite doubles being rationals. The addition of
  `p.x += p.vx` and `p.y += p.vy` is the IEEE-754 binary64 one, `addDouble`:
  the exact sum rounded to the nearest double, ties to even. A sum beyond the
  largest double, `Infinity` in JavaScript, keeps its 53-bit rounding here: it
  takes the same branch of both comparisons of `draw` and is overwritten by
  the wrap, so the stored coordinate is the same.
* The thresholds `w + 10` and `h + 10` are exact: `innerWidth` and
  `innerHeight` are 32-bit integers in the DOM. The creation-time values of
  `rand` are the exact values of its expression.
* Viewport dimensions (`innerWidth`, `innerHeight`) are natural numbers, and
  `Math.floor(w * h / 120000)` is natural-number division: for `w * h < 2^53`
  a non-integer quotient stays at least `1/120000` below the next integer,
  more than half a unit in the last place, so the double has the same floor.
* `Math.random()` is an explicit stream `rnd : Nat → ℚ`; the `k`-th call of
  `Math.random` made by `initParticles` returns `rnd k`.
* The closure variables `w`, `h`, `particles` and the captured canvas's
  `width`/`height` form the record `Renderer`. Painting (`clearRect`, `arc`,
  `fill`) reads the state and writes only pixels, so it is left out of `draw`.
* A JavaScript string is the list of its UTF-16 code units.
-/

namespace Adarsgd

/-! ## Particle renderer: data model -/

/-- One particle record, with the fields of the object literal pushed on line 353. -/
structure Particle where
  x : ℚ
  y : ℚ
  r : ℚ
  vx : ℚ
  vy : ℚ
  a : ℚ
deriving DecidableEq

/-- The closure state of `initParticles`: the captured canvas's pixel size and
the variables `w`, `h`, `particles`. -/
structure Renderer where
  canvasWidth : Nat
  canvasHeight : Nat
  w : Nat
  h : Nat
  particles : List Particle
deriving DecidableEq

/-- The value handed to `initParticles` by `document.querySelector`. -/
inductive CanvasArg where
  /-- Either `null` or `undefined`: a falsy argument. -/
  | nullish
  /-- A truthy value that has no callable `getContext`. -/
  | noGetContext
  /-- A canvas element; `ctx2d` tells whether `getContext('2d')` is non-null. -/
  | canvas (ctx2d : Bool)
deriving DecidableEq

/-- The host-visible effects `initParticles` can perform. -/
inductive Effect where
  | setCanvasWidth (n : Nat)
  | setCanvasHeight (n : Nat)
  | pushParticle (p : Particle)
  | addResizeListener
  | requestAnimationFrame
deriving DecidableEq

/-- What a call of `initParticles` leaves behind: the effects it performed, in
order, and the closure it installed (if any). -/
structure InitOutcome where
  effects : List Effect
  renderer : Option Renderer
deriving DecidableEq

/-! ## Particle renderer: operations -/

/-- The helper `rand(min,max)` of line 351, `u` being the `Math.random()` draw. -/
def rand (u min max : ℚ) : ℚ := u * (max - min) + min

/-- The particle count of line 350. -/
def count (w h : Nat) : Nat := max 18 (w * h / 120000)

/-- The `i`-th particle pushed by the loop of lines 352-354. The object literal
evaluates its six `rand` calls in source order `x, y, r, vx, vy, a`. -/
def mkParticle (w h : Nat) (rnd : Nat → ℚ) (i : Nat) : Particle :=
  { x := rand (rnd (6 * i)) 0 w
    y := rand (rnd (6 * i + 1)) 0 h
    r := rand (rnd (6 * i + 2)) (6 / 10) (26 / 10)
    vx := rand (rnd (6 * i + 3)) (-(26 / 100)) (26 / 100)
    vy := rand (rnd (6 * i + 4)) (-(36 / 100)) (36 / 100)
    a := rand (rnd (6 * i + 5)) (6 / 100) (25 / 100) }

/-- The array `particles` after the loop of lines 352-354. -/
def mkParticles (w h : Nat) (rnd : Nat → ℚ) : List Particle :=
  (List.range (count w h)).map (mkParticle w h rnd)

/-- The closure state once lines 347-354 have run. -/
def initRenderer (innerWidth innerHeight : Nat) (rnd : Nat → ℚ) : Renderer :=
  { canvasWidth := innerWidth
    canvasHeight := innerHeight
    w := innerWidth
    h := innerHeight
    particles := mkParticles innerWidth innerHeight rnd }

/-- The function `initParticles(canvas)`, lines 343-372, up to (not including)
the first run of `draw`. A `TypeError` is the only way it can raise. -/
def initParticles (canvas : CanvasArg) (innerWidth innerHeight : Nat) (rnd : Nat → ℚ) :
    Except String InitOutcome :=
  match canvas with
  | .nullish => .ok { effects := [], renderer := none }
  | .noGetContext => .error "TypeError: canvas.getContext is not a function"
  | .canvas false => .ok { effects := [], renderer := none }
  | .canvas true =>
    let s := initRenderer innerWidth innerHeight rnd
    .ok { effects :=
            [Effect.setCanvasWidth innerWidth, Effect.setCanvasHeight innerHeight]
              ++ s.particles.map Effect.pushParticle
              ++ [Effect.addResizeListener, Effect.requestAnimationFrame]
          renderer := some s }

/-- Rounding to the nearest integer, a tie going to the even neighbour. -/
def roundHalfEven (q : ℚ) : Int :=
  let f : Int := ⌊q⌋
  if q - f < 1 / 2 then f
  else if 1 / 2 < q - f then f + 1
  else if f % 2 = 0 then f else f + 1

/-- The binary exponent of the double nearest `q`: the `e` with
`2^e ≤ |q| < 2^(e+1)`, and `-1022` throughout the subnormal range. -/
def doubleExp (q : ℚ) : Int := max (Int.log 2 |q|) (-1022)

/-- The double nearest `q` (round to nearest, ties to even): `q` rounded to a
multiple of the unit in the last place `2^(e-52)` of its binade. -/
def roundDouble (q : ℚ) : ℚ :=
  (roundHalfEven (q / 2 ^ (doubleExp q - 52)) : ℚ) * 2 ^ (doubleExp q - 52)

/-- The JavaScript `+` on two numbers: the exact sum, rounded to a double. -/
def addDouble (a b : ℚ) : ℚ := roundDouble (a + b)

/-- The resize listener of line 355, run with the new `innerWidth`, `innerHeight`. -/
def resize (s : Renderer) (innerWidth innerHeight : Nat) : Renderer :=
  { s with
    canvasWidth := innerWidth
    canvasHeight := innerHeight
    w := innerWidth
    h := innerHeight }

/-- The body of the `forEach` callback of lines 359-363 for one particle, with
the closure's current `w` and `h`. -/
def drawParticle (w h : Nat) (p : Particle) : Particle :=
  let p := { p with x := addDouble p.x p.vx }
  let p := { p with y := addDouble p.y p.vy }
  let p := if p.x < -10 then { p with x := (w : ℚ) + 10 } else p
  let p := if p.x > (w : ℚ) + 10 then { p with x := -10 } else p
  let p := if p.y < -10 then { p with y := (h : ℚ) + 10 } else p
  let p := if p.y > (h : ℚ) + 10 then { p with y := -10 } else p
  p

/-- One per-frame advance: the function `draw` of lines 356-370. -/
def draw (s : Renderer) : Renderer :=
  { s with particles := s.particles.map (drawParticle s.w s.h) }

/-- The events that drive the renderer after `initParticles`. -/
inductive Event where
  | frame
  | resize (innerWidth innerHeight : Nat)
deriving DecidableEq

/-- The renderer's reaction to one event. -/
def step (s : Renderer) : Event → Renderer
  | .frame => draw s
  | .resize iw ih => resize s iw ih

/-- The renderer after a sequence of events, oldest first. -/
def run (s : Renderer) (es : List Event) : Renderer :=
  es.foldl step s

/-- The band `[-10, w+10] × [-10, h+10]` for one particle. -/
def Particle.InBand (w h : Nat) (p : Particle) : Prop :=
  -10 ≤ p.x ∧ p.x ≤ (w : ℚ) + 10 ∧ -10 ≤ p.y ∧ p.y ≤ (h : ℚ) + 10

instance (w h : Nat) (p : Particle) : Decidable (p.InBand w h) := by
  unfold Particle.InBand; infer_instance

/-- Every particle lies in the band of the renderer's current dimensions. -/
def Renderer.InBand (s : Renderer) : Prop :=
  ∀ p ∈ s.particles, p.InBand s.w s.h

instance (s : Renderer) : Decidable s.InBand := by
  unfold Renderer.InBand; infer_instance

/-- The fields of a particle other than its position. -/
def Particle.fixed (p : Particle) : ℚ × ℚ × ℚ × ℚ := (p.vx, p.vy, p.r, p.a)

/-! ## Typed text: the `tick` state machine of `typeLoop` -/

/-- A JavaScript string, as the list of its UTF-16 code units. -/
abbrev JSString := List Nat

/-- The method `String.prototype.slice(start, end)` for integer arguments:
a negative index counts from the end, and both are clamped to the string. -/
def slice (s : JSString) (b e : Int) : JSString :=
  let len : Int := s.length
  let lo : Int := if b < 0 then max (len + b) 0 else min b len
  let hi : Int := if e < 0 then max (len + e) 0 else min e len
  (s.drop lo.toNat).take (max (hi - lo) 0).toNat

/-- The variables `pi`, `ii`, `deleting` of `typeLoop` together with the
element's `textContent`. -/
structure TypeState where
  pi : Nat
  ii : Int
  deleting : Bool
  text : JSString
deriving DecidableEq

/-- One run of `tick`, lines 134-146: the new state and the delay handed to
`setTimeout` for the next run. Reading `.slice` of an undefined phrase raises. -/
def tick (phrases : List JSString) (speed pause : ℚ) (s : TypeState) :
    Except String (TypeState × ℚ) :=
  match phrases[s.pi]? with
  | none => .error "TypeError: cannot read properties of undefined"
  | some phrase =>
    if !s.deleting then
      let s := { s with text := slice phrase 0 (s.ii + 1) }
      let s := { s with ii := s.ii + 1 }
      if s.ii = (phrase.length : Int) then
        .ok ({ s with deleting := true }, pause)
      else
        .ok (s, if s.deleting then speed / 2 else speed)
    else
      let s := { s with text := slice phrase 0 (s.ii - 1) }
      let s := { s with ii := s.ii - 1 }
      let s :=
        if s.ii = 0 then { s with deleting := false, pi := (s.pi + 1) % phrases.length }
        else s
      .ok (s, if s.deleting then speed / 2 else speed)

/-- The state after `k` consecutive runs of `tick`. -/
def ticks (phrases : List JSString) (speed pause : ℚ) : Nat → TypeState → Except String TypeState
  | 0, s => .ok s
  | k + 1, s =>
    match ticks phrases speed pause k s with
    | .ok s1 => (tick phrases speed pause s1).map Prod.fst
    | .error e => .error e

/-- The state `typeLoop` is in when it starts on phrase `pi`. -/
def startOf (pi : Nat) (text : JSString) : TypeState :=
  { pi := pi, ii := 0, deleting := false, text := text }

/-! ## Double rounding: evaluation lemmas -/

theorem doubleExp_eq (q : ℚ) (e : ℤ) (he : -1022 ≤ e) (h1 : (2 : ℚ) ^ e ≤ |q|)
    (h2 : |q| < (2 : ℚ) ^ (e + 1)) : doubleExp q = e := by
  have hpos : 0 < |q| := lt_of_lt_of_le (zpow_pos (by norm_num) e) h1
  have hlog : Int.log 2 |q| = e := by
    apply le_antisymm
    · have := (Int.lt_zpow_iff_log_lt (by norm_num : 1 < 2) hpos).mp (by exact_mod_cast h2)
      omega
    · exact (Int.zpow_le_iff_le_log (by norm_num : 1 < 2) hpos).mp (by exact_mod_cast h1)
  simp [doubleExp, hlog, he]

theorem roundHalfEven_down (q : ℚ) (f : ℤ) (h1 : (f : ℚ) ≤ q) (h2 : q - f < 1 / 2) :
    roundHalfEven q = f := by
  have hf : ⌊q⌋ = f := Int.floor_eq_iff.mpr ⟨h1, by linarith⟩
  simp only [roundHalfEven, hf]
  rw [if_pos h2]

theorem roundHalfEven_up (q : ℚ) (f : ℤ) (h1 : 1 / 2 < q - f) (h2 : q < f + 1) :
    roundHalfEven q = f + 1 := by
  have hf : ⌊q⌋ = f := Int.floor_eq_iff.mpr ⟨by linarith, h2⟩
  have h3 : ¬ (q - f < 1 / 2) := by linarith
  simp only [roundHalfEven, hf]
  rw [if_neg h3, if_pos h1]

theorem roundDouble_eq (q : ℚ) (e n : ℤ) (he : -1022 ≤ e) (h1 : (2 : ℚ) ^ e ≤ |q|)
    (h2 : |q| < (2 : ℚ) ^ (e + 1)) (hn : roundHalfEven (q / 2 ^ (e - 52)) = n) :
    roundDouble q = n * 2 ^ (e - 52) := by
  simp only [roundDouble, doubleExp_eq q e he h1 h2, hn]

/-- The double written `-0.1`. -/
theorem roundDouble_neg_tenth :
    roundDouble (-(1 / 10)) = -(7205759403792794 / 2 ^ 56) := by
  rw [roundDouble_eq (-(1 / 10)) (-4) (-7205759403792794) (by norm_num)
    (by norm_num [abs_of_pos]) (by norm_num [abs_of_pos])
    (roundHalfEven_down _ _ (by norm_num) (by norm_num))]
  norm_num

/-- In doubles `-10.5 + -0.1` is the double nearest `-10.6`. -/
theorem addDouble_example :
    addDouble (-(21 / 2)) (roundDouble (-(1 / 10))) = -(5967269506265907 / 2 ^ 49) := by
  rw [roundDouble_neg_tenth]
  unfold addDouble
  rw [roundDouble_eq _ 3 (-5967269506265907) (by norm_num) (by norm_num [abs_of_neg])
    (by norm_num [abs_of_neg])
    (by
      have := roundHalfEven_up
        ((-(21 / 2) + -(7205759403792794 / 2 ^ 56)) / 2 ^ ((3 : ℤ) - 52))
        (-5967269506265908) (by norm_num) (by norm_num)
      rw [this]; norm_num)]
  norm_num

/-- In doubles `-10 + -2^-60` is `-10`: the exact sum is below `-10`, the
stored one is not. -/
theorem addDouble_boundary : addDouble (-10) (-(1 / 2 ^ 60)) = -10 := by
  unfold addDouble
  rw [roundDouble_eq _ 3 (-5629499534213120) (by norm_num) (by norm_num [abs_of_neg])
    (by norm_num [abs_of_neg])
    (by
      have := roundHalfEven_up ((-10 + -(1 / 2 ^ 60)) / 2 ^ ((3 : ℤ) - 52))
        (-5629499534213121) (by norm_num) (by norm_num)
      rw [this]; norm_num)]
  norm_num

theorem addDouble_400 : addDouble 400 0 = 400 := by
  unfold addDouble
  rw [roundDouble_eq _ 8 7036874417766400 (by norm_num) (by norm_num [abs_of_pos])
    (by norm_num [abs_of_pos]) (roundHalfEven_down _ _ (by norm_num) (by norm_num))]
  norm_num

theorem addDouble_300 : addDouble 300 0 = 300 := by
  unfold addDouble
  rw [roundDouble_eq _ 8 5277655813324800 (by norm_num) (by norm_num [abs_of_pos])
    (by norm_num [abs_of_pos]) (roundHalfEven_down _ _ (by norm_num) (by norm_num))]
  norm_num

/-! ## Particle renderer: lemmas -/

theorem drawParticle_x (w h : Nat) (p : Particle) :
    (drawParticle w h p).x =
      if addDouble p.x p.vx < -10 then (w : ℚ) + 10
      else if addDouble p.x p.vx > (w : ℚ) + 10 then -10 else addDouble p.x p.vx := by
  have hw : (0 : ℚ) ≤ (w : ℚ) := Nat.cast_nonneg w
  unfold drawParticle
  dsimp only
  split_ifs <;> (try dsimp only at *) <;> first | rfl | (exfalso; linarith)

theorem drawParticle_y (w h : Nat) (p : Particle) :
    (drawParticle w h p).y =
      if addDouble p.y p.vy < -10 then (h : ℚ) + 10
      else if addDouble p.y p.vy > (h : ℚ) + 10 then -10 else addDouble p.y p.vy := by
  have hh : (0 : ℚ) ≤ (h : ℚ) := Nat.cast_nonneg h
  unfold drawParticle
  dsimp only
  split_ifs <;> (try dsimp only at *) <;> first | rfl | (exfalso; linarith)

theorem drawParticle_fixed (w h : Nat) (p : Particle) :
    (drawParticle w h p).fixed = p.fixed := by
  unfold drawParticle Particle.fixed
  dsimp only
  split_ifs <;> rfl

theorem drawParticle_inBand (w h : Nat) (p : Particle) :
    (drawParticle w h p).InBand w h := by
  have hw : (0 : ℚ) ≤ (w : ℚ) := Nat.cast_nonneg w
  have hh : (0 : ℚ) ≤ (h : ℚ) := Nat.cast_nonneg h
  unfold Particle.InBand
  rw [drawParticle_x, drawParticle_y]
  refine ⟨?_, ?_, ?_, ?_⟩ <;> split_ifs <;> linarith

theorem draw_inBand (s : Renderer) : (draw s).InBand := by
  intro p hp
  obtain ⟨q, _, rfl⟩ := List.mem_map.mp hp
  exact drawParticle_inBand s.w s.h q

theorem draw_fixed (s : Renderer) :
    (draw s).particles.map Particle.fixed = s.particles.map Particle.fixed := by
  simp only [draw, List.map_map]
  apply List.map_congr_left
  intro p _
  exact drawParticle_fixed s.w s.h p

theorem iterate_draw_dims (n : Nat) (s : Renderer) :
    (draw^[n] s).w = s.w ∧ (draw^[n] s).h = s.h ∧
      (draw^[n] s).canvasWidth = s.canvasWidth ∧ (draw^[n] s).canvasHeight = s.canvasHeight := by
  induction n with
  | zero => exact ⟨rfl, rfl, rfl, rfl⟩
  | succ n ih =>
    rw [Function.iterate_succ_apply']
    exact ih

theorem iterate_draw_fixed (n : Nat) (s : Renderer) :
    (draw^[n] s).particles.map Particle.fixed = s.particles.map Particle.fixed := by
  induction n with
  | zero => rfl
  | succ n ih =>
    rw [Function.iterate_succ_apply', draw_fixed, ih]

theorem length_mkParticles (w h : Nat) (rnd : Nat → ℚ) :
    (mkParticles w h rnd).length = max 18 (w * h / 120000) := by
  simp [mkParticles, count]

theorem mkParticle_inBand (w h : Nat) (rnd : Nat → ℚ)
    (hr : ∀ k, 0 ≤ rnd k ∧ rnd k < 1) (i : Nat) : (mkParticle w h rnd i).InBand w h := by
  have hw : (0 : ℚ) ≤ (w : ℚ) := Nat.cast_nonneg w
  have hh : (0 : ℚ) ≤ (h : ℚ) := Nat.cast_nonneg h
  obtain ⟨hx0, hx1⟩ := hr (6 * i)
  obtain ⟨hy0, hy1⟩ := hr (6 * i + 1)
  have hx : rnd (6 * i) * (w : ℚ) ≤ (w : ℚ) := mul_le_of_le_one_left hw hx1.le
  have hy : rnd (6 * i + 1) * (h : ℚ) ≤ (h : ℚ) := mul_le_of_le_one_left hh hy1.le
  have hx2 : 0 ≤ rnd (6 * i) * (w : ℚ) := mul_nonneg hx0 hw
  have hy2 : 0 ≤ rnd (6 * i + 1) * (h : ℚ) := mul_nonneg hy0 hh
  simp only [Particle.InBand, mkParticle, rand, sub_zero, add_zero]
  refine ⟨?_, ?_, ?_, ?_⟩ <;> linarith

theorem initRenderer_inBand (w h : Nat) (rnd : Nat → ℚ)
    (hr : ∀ k, 0 ≤ rnd k ∧ rnd k < 1) : (initRenderer w h rnd).InBand := by
  intro p hp
  obtain ⟨i, _, rfl⟩ := List.mem_map.mp hp
  exact mkParticle_inBand w h rnd hr i

theorem run_append (s : Renderer) (es fs : List Event) :
    run s (es ++ fs) = run (run s es) fs := by
  simp [run, List.foldl_append]

theorem draw_map_x (s : Renderer) :
    (draw s).particles.map Particle.x =
      s.particles.map (fun p =>
        if addDouble p.x p.vx < -10 then (s.w : ℚ) + 10
        else if addDouble p.x p.vx > (s.w : ℚ) + 10 then -10 else addDouble p.x p.vx) := by
  simp only [draw, List.map_map]
  apply List.map_congr_left
  intro p _
  exact drawParticle_x s.w s.h p

theorem draw_map_y (s : Renderer) :
    (draw s).particles.map Particle.y =
      s.particles.map (fun p =>
        if addDouble p.y p.vy < -10 then (s.h : ℚ) + 10
        else if addDouble p.y p.vy > (s.h : ℚ) + 10 then -10 else addDouble p.y p.vy) := by
  simp only [draw, List.map_map]
  apply List.map_congr_left
  intro p _
  exact drawParticle_y s.w s.h p

/-- With every `Math.random()` draw equal to `1/2`, an 800×600 viewport gets 18
particles at rest in its centre. -/
theorem mkParticles_half :
    mkParticles 800 600 (fun _ => 1 / 2) =
      List.replicate 18 { x := 400, y := 300, r := 8 / 5, vx := 0, vy := 0, a := 31 / 200 } := by
  have hP : ∀ i, mkParticle 800 600 (fun _ => 1 / 2) i =
      { x := 400, y := 300, r := 8 / 5, vx := 0, vy := 0, a := 31 / 200 } := by
    intro i
    simp only [mkParticle, rand]
    norm_num
  have hc : count 800 600 = 18 := by norm_num [count]
  simp only [mkParticles, hc]
  rw [List.eq_replicate_iff]
  refine ⟨by simp, ?_⟩
  intro q hq
  obtain ⟨i, _, rfl⟩ := List.mem_map.mp hq
  exact hP i

theorem drawParticle_centre_small :
    drawParticle 200 150 { x := 400, y := 300, r := 8 / 5, vx := 0, vy := 0, a := 31 / 200 } =
      { x := -10, y := -10, r := 8 / 5, vx := 0, vy := 0, a := 31 / 200 } := by
  simp only [drawParticle, addDouble_400, addDouble_300]
  norm_num

theorem drawParticle_centre_large :
    drawParticle 800 600 { x := 400, y := 300, r := 8 / 5, vx := 0, vy := 0, a := 31 / 200 } =
      { x := 400, y := 300, r := 8 / 5, vx := 0, vy := 0, a := 31 / 200 } := by
  simp only [drawParticle, addDouble_400, addDouble_300]
  norm_num

/-- With a usable canvas `initParticles` does act: it sizes the surface, fills
the particle array, registers the resize listener and requests the first frame. -/
theorem initParticles_canvas (w h : Nat) (rnd : Nat → ℚ) :
    initParticles (.canvas true) w h rnd =
      .ok { effects :=
              [Effect.setCanvasWidth w, Effect.setCanvasHeight h]
                ++ (mkParticles w h rnd).map Effect.pushParticle
                ++ [Effect.addResizeListener, Effect.requestAnimationFrame]
            renderer := some (initRenderer w h rnd) } := rfl

/-- A truthy argument without `getContext` makes `initParticles` raise. -/
theorem initParticles_noGetContext (w h : Nat) (rnd : Nat → ℚ) :
    ∃ e, initParticles .noGetContext w h rnd = .error e := ⟨_, rfl⟩

/-! ## Particle renderer: the claims -/

/-- C1: for every viewport of width `w` and height `h` with `w * h > 0`,
`initParticles` on a usable canvas creates exactly `max 18 (w * h / 120000)`
particles (natural-number division is the floor); a 1200×800 viewport gives 18
particles and a 4000×3000 viewport gives 100. -/
theorem initParticles_particle_count (w h : Nat) (rnd : Nat → ℚ) (_hpos : 0 < w * h) :
    (∃ out s, initParticles (.canvas true) w h rnd = .ok out ∧ out.renderer = some s ∧
        s.particles.length = max 18 (w * h / 120000)) ∧
      (∃ out s, initParticles (.canvas true) 1200 800 rnd = .ok out ∧ out.renderer = some s ∧
        s.particles.length = 18) ∧
      (∃ out s, initParticles (.canvas true) 4000 3000 rnd = .ok out ∧ out.renderer = some s ∧
        s.particles.length = 100) := by
  refine ⟨⟨_, _, rfl, rfl, length_mkParticles w h rnd⟩, ⟨_, _, rfl, rfl, ?_⟩,
    ⟨_, _, rfl, rfl, ?_⟩⟩
  · rw [show (initRenderer 1200 800 rnd).particles = mkParticles 1200 800 rnd from rfl,
      length_mkParticles]
    norm_num
  · rw [show (initRenderer 4000 3000 rnd).particles = mkParticles 4000 3000 rnd from rfl,
      length_mkParticles]
    norm_num

theorem initParticles_particle_count_witness :
    0 < 1920 * 1080 ∧
      ((∃ out s, initParticles (.canvas true) 1920 1080 (fun _ => 1 / 2) = .ok out ∧
          out.renderer = some s ∧ s.particles.length = max 18 (1920 * 1080 / 120000)) ∧
        (∃ out s, initParticles (.canvas true) 1200 800 (fun _ => 1 / 2) = .ok out ∧
          out.renderer = some s ∧ s.particles.length = 18) ∧
        (∃ out s, initParticles (.canvas true) 4000 3000 (fun _ => 1 / 2) = .ok out ∧
          out.renderer = some s ∧ s.particles.length = 100)) :=
  ⟨by decide, initParticles_particle_count 1920 1080 (fun _ => 1 / 2) (by decide)⟩

/-- C2: for every particle, whatever its prior position and velocity, and every
surface size `w`, `h`, one per-frame advance leaves its `x` in `[-10, w+10]` and
its `y` in `[-10, h+10]`; hence every particle of `draw s` is in the band of the
current dimensions. -/
theorem draw_position_in_band (w h : Nat) (p : Particle) (s : Renderer) :
    (-10 ≤ (drawParticle w h p).x ∧ (drawParticle w h p).x ≤ (w : ℚ) + 10 ∧
        -10 ≤ (drawParticle w h p).y ∧ (drawParticle w h p).y ≤ (h : ℚ) + 10) ∧
      ∀ q ∈ (draw s).particles,
        -10 ≤ q.x ∧ q.x ≤ (s.w : ℚ) + 10 ∧ -10 ≤ q.y ∧ q.y ≤ (s.h : ℚ) + 10 :=
  ⟨drawParticle_inBand w h p, draw_inBand s⟩

/-- C3: one per-frame advance of `draw` maps each coordinate `c` with velocity
`v` and dimension `d`, independently per axis, to `d+10` if `c+v < -10`, to
`-10` if `c+v > d+10`, and to `c+v` otherwise, `c+v` being the sum as
`p.x += p.vx` computes and stores it (`addDouble`, the double nearest the exact
sum). A particle at `x = -10.5` with `vx = -0.1` ends the frame at `x = w+10`;
one at `x = -10` with `vx = -2^-60`, whose sum is the double `-10`, stays at
`-10`. -/
theorem draw_wraps_each_axis (s : Renderer) (p : Particle) (cw ch w h : Nat) (y r vy a : ℚ) :
    (draw s).particles.map Particle.x =
        s.particles.map (fun p =>
          if addDouble p.x p.vx < -10 then (s.w : ℚ) + 10
          else if addDouble p.x p.vx > (s.w : ℚ) + 10 then -10 else addDouble p.x p.vx) ∧
      (draw s).particles.map Particle.y =
        s.particles.map (fun p =>
          if addDouble p.y p.vy < -10 then (s.h : ℚ) + 10
          else if addDouble p.y p.vy > (s.h : ℚ) + 10 then -10 else addDouble p.y p.vy) ∧
      (drawParticle w h p).x =
        (if addDouble p.x p.vx < -10 then (w : ℚ) + 10
          else if addDouble p.x p.vx > (w : ℚ) + 10 then -10 else addDouble p.x p.vx) ∧
      (drawParticle w h p).y =
        (if addDouble p.y p.vy < -10 then (h : ℚ) + 10
          else if addDouble p.y p.vy > (h : ℚ) + 10 then -10 else addDouble p.y p.vy) ∧
      (draw { canvasWidth := cw, canvasHeight := ch, w := w, h := h,
              particles := [{ x := -(21 / 2), y := y, r := r, vx := roundDouble (-(1 / 10)),
                              vy := vy, a := a }] }).particles.map Particle.x
        = [(w : ℚ) + 10] ∧
      (draw { canvasWidth := cw, canvasHeight := ch, w := w, h := h,
              particles := [{ x := -10, y := y, r := r, vx := -(1 / 2 ^ 60),
                              vy := vy, a := a }] }).particles.map Particle.x
        = [-10] := by
  have hw : (0 : ℚ) ≤ (w : ℚ) := Nat.cast_nonneg w
  refine ⟨draw_map_x s, draw_map_y s, drawParticle_x w h p, drawParticle_y w h p, ?_, ?_⟩
  · rw [draw_map_x]
    simp only [List.map_cons, List.map_nil, addDouble_example]
    norm_num
  · rw [draw_map_x]
    simp only [List.map_cons, List.map_nil, addDouble_boundary]
    have h1 : ¬ ((-10 : ℚ) > (w : ℚ) + 10) := by linarith
    simp [h1]

/-- C4: after the resize listener has run with `(w1, h1)`, every later
per-frame advance (until another resize) compares and wraps against the current
dimensions: the closure's `w`, `h` are still `w1`, `h1`, and the frame sends
each coordinate whose stored sum is below `-10` to `w1+10` (`h1+10`), each one
above `w1+10` (`h1+10`) to `-10` and keeps the others, whatever size the
particle set was created with. Particles created at the centre of an 800×600
viewport are wrapped by the frame after a resize to 200×150, which the
creation-time bounds would not do. -/
theorem draw_after_resize_uses_current_dims (s : Renderer) (w1 h1 n : Nat) :
    (draw^[n] (resize s w1 h1)).w = w1 ∧ (draw^[n] (resize s w1 h1)).h = h1 ∧
      (draw (draw^[n] (resize s w1 h1))).particles.map Particle.x =
        (draw^[n] (resize s w1 h1)).particles.map (fun p =>
          if addDouble p.x p.vx < -10 then (w1 : ℚ) + 10
          else if addDouble p.x p.vx > (w1 : ℚ) + 10 then -10 else addDouble p.x p.vx) ∧
      (draw (draw^[n] (resize s w1 h1))).particles.map Particle.y =
        (draw^[n] (resize s w1 h1)).particles.map (fun p =>
          if addDouble p.y p.vy < -10 then (h1 : ℚ) + 10
          else if addDouble p.y p.vy > (h1 : ℚ) + 10 then -10 else addDouble p.y p.vy) ∧
      (draw (resize (initRenderer 800 600 (fun _ => 1 / 2)) 200 150)).particles.map
          (fun p => (p.x, p.y)) = List.replicate 18 (-10, -10) ∧
      (draw (initRenderer 800 600 (fun _ => 1 / 2))).particles.map
          (fun p => (p.x, p.y)) = List.replicate 18 (400, 300) := by
  obtain ⟨hw, hh, _, _⟩ := iterate_draw_dims n (resize s w1 h1)
  have hw1 : (draw^[n] (resize s w1 h1)).w = w1 := hw
  have hh1 : (draw^[n] (resize s w1 h1)).h = h1 := hh
  refine ⟨hw1, hh1, ?_, ?_, ?_, ?_⟩
  · rw [draw_map_x, hw1]
  · rw [draw_map_y, hh1]
  · simp only [draw, resize, initRenderer, mkParticles_half, List.map_replicate,
      drawParticle_centre_small]
  · simp only [draw, initRenderer, mkParticles_half, List.map_replicate,
      drawParticle_centre_large]

/-- C5: the resize listener sets the surface dimensions and the closure's
`w`, `h` to the new viewport size and leaves the particle array exactly as it
was: same length, same records in the same order. -/
theorem resize_keeps_particles (s : Renderer) (w1 h1 : Nat) :
    (resize s w1 h1).canvasWidth = w1 ∧ (resize s w1 h1).canvasHeight = h1 ∧
      (resize s w1 h1).w = w1 ∧ (resize s w1 h1).h = h1 ∧
      (resize s w1 h1).particles = s.particles ∧
      (resize s w1 h1).particles.length = s.particles.length ∧
      ∀ i : Nat, (resize s w1 h1).particles[i]? = s.particles[i]? :=
  ⟨rfl, rfl, rfl, rfl, rfl, rfl, fun _ => rfl⟩

/-- C6: one per-frame advance changes only the `x` and `y` of each particle:
the dimensions are untouched, the number and order of particles and every
particle's `vx`, `vy`, `r`, `a` are as before, and so they are still the
creation-time values after any number of frames. -/
theorem draw_changes_only_positions (s : Renderer) (n w h : Nat) (rnd : Nat → ℚ) :
    (draw s).w = s.w ∧ (draw s).h = s.h ∧
      (draw s).canvasWidth = s.canvasWidth ∧ (draw s).canvasHeight = s.canvasHeight ∧
      (draw s).particles.length = s.particles.length ∧
      (draw s).particles.map Particle.fixed = s.particles.map Particle.fixed ∧
      (draw^[n] s).particles.map Particle.fixed = s.particles.map Particle.fixed ∧
      (draw^[n] (initRenderer w h rnd)).particles.map Particle.fixed =
        (mkParticles w h rnd).map Particle.fixed :=
  ⟨rfl, rfl, rfl, rfl, by simp [draw], draw_fixed s, iterate_draw_fixed n s,
    iterate_draw_fixed n (initRenderer w h rnd)⟩

/-- C8: applying the resize listener twice in succession with the same
viewport size yields the same renderer state as applying it once. -/
theorem resize_idempotent (s : Renderer) (w1 h1 : Nat) :
    resize (resize s w1 h1) w1 h1 = resize s w1 h1 := rfl

/-- C9: called with no canvas (`null`/`undefined`), or with a canvas whose 2D
context is unavailable, `initParticles` returns normally having done nothing:
no surface dimension assigned, no particle created, no resize listener
registered, no frame requested, no closure installed. -/
theorem initParticles_without_surface (w h : Nat) (rnd : Nat → ℚ) :
    initParticles .nullish w h rnd = .ok { effects := [], renderer := none } ∧
      initParticles (.canvas false) w h rnd = .ok { effects := [], renderer := none } :=
  ⟨rfl, rfl⟩

/-! ## Typed text: lemmas -/

theorem slice_zero (s : JSString) (e : Nat) (he : e ≤ s.length) :
    slice s 0 (e : Int) = s.take e := by
  have h1 : ¬ ((e : Int) < 0) := by omega
  have h2 : min (e : Int) (s.length : Int) = e := by omega
  have h3 : min (0 : Int) (s.length : Int) = 0 := by omega
  simp [slice, h1, h2, h3]

theorem tick_typing (phrases : List JSString) (speed pause : ℚ) (pi : Nat)
    (phrase text : JSString) (hphr : phrases[pi]? = some phrase) (k : Nat)
    (hk : k < phrase.length) :
    (tick phrases speed pause ⟨pi, k, false, text⟩).map Prod.fst =
      .ok ⟨pi, (k : Int) + 1, decide (k + 1 = phrase.length), phrase.take (k + 1)⟩ := by
  have hs : slice phrase 0 ((k : Int) + 1) = phrase.take (k + 1) := by
    have := slice_zero phrase (k + 1) hk
    simpa using this
  by_cases hlast : k + 1 = phrase.length
  · have hc : (k : Int) + 1 = (phrase.length : Int) := by omega
    have hs2 : slice phrase 0 (phrase.length : Int) = phrase := by
      simpa using slice_zero phrase phrase.length le_rfl
    simp [tick, hphr, hs2, hc, hlast, Except.map]
  · have hc : ¬ ((k : Int) + 1 = (phrase.length : Int)) := by omega
    simp [tick, hphr, hs, hc, hlast, Except.map]

theorem tick_deleting (phrases : List JSString) (speed pause : ℚ) (pi : Nat)
    (phrase text : JSString) (hphr : phrases[pi]? = some phrase) (j : Nat)
    (hj : j < phrase.length) :
    (tick phrases speed pause ⟨pi, (j : Int) + 1, true, text⟩).map Prod.fst =
      .ok ⟨if j = 0 then (pi + 1) % phrases.length else pi, (j : Int), decide (j ≠ 0),
        phrase.take j⟩ := by
  have hs : slice phrase 0 (j : Int) = phrase.take j := slice_zero phrase j hj.le
  by_cases h0 : j = 0
  · subst h0
    simp [tick, hphr, Except.map, slice]
  · have hc : ¬ ((j : Int) = 0) := by omega
    simp [tick, hphr, hs, hc, h0, Except.map]

theorem ticks_succ (phrases : List JSString) (speed pause : ℚ) (k : Nat) (s s1 : TypeState)
    (h : ticks phrases speed pause k s = .ok s1) :
    ticks phrases speed pause (k + 1) s = (tick phrases speed pause s1).map Prod.fst := by
  simp [ticks, h]

/-- While typing: after `k < n` ticks the machine still types, with `ii = k`. -/
theorem ticks_typing_state (phrases : List JSString) (speed pause : ℚ) (pi : Nat)
    (phrase text : JSString) (hphr : phrases[pi]? = some phrase) (k : Nat)
    (hk : k < phrase.length) :
    ∃ t, ticks phrases speed pause k (startOf pi text) = .ok ⟨pi, (k : Int), false, t⟩ := by
  induction k with
  | zero => exact ⟨text, rfl⟩
  | succ k ih =>
    obtain ⟨t, ht⟩ := ih (by omega)
    refine ⟨phrase.take (k + 1), ?_⟩
    rw [ticks_succ _ _ _ _ _ _ ht, tick_typing phrases speed pause pi phrase t hphr k (by omega)]
    have : ¬ (k + 1 = phrase.length) := by omega
    simp [this]

/-- The `k`-th tick of the typing phase, `1 ≤ k ≤ n`, shows the first `k` units. -/
theorem ticks_typing (phrases : List JSString) (speed pause : ℚ) (pi : Nat)
    (phrase text : JSString) (hphr : phrases[pi]? = some phrase) (k : Nat)
    (hk : k < phrase.length) :
    ticks phrases speed pause (k + 1) (startOf pi text) =
      .ok ⟨pi, ((k + 1 : Nat) : Int), decide (k + 1 = phrase.length), phrase.take (k + 1)⟩ := by
  obtain ⟨t, ht⟩ := ticks_typing_state phrases speed pause pi phrase text hphr k hk
  rw [ticks_succ _ _ _ _ _ _ ht, tick_typing phrases speed pause pi phrase t hphr k hk]
  simp

/-- The deleting phase: tick `n + j`, `j < n`, leaves `n - j` units and `ii = n - j`. -/
theorem ticks_deleting (phrases : List JSString) (speed pause : ℚ) (pi : Nat)
    (phrase text : JSString) (hphr : phrases[pi]? = some phrase) (j : Nat)
    (hj : j < phrase.length) :
    ticks phrases speed pause (phrase.length + j) (startOf pi text) =
      .ok ⟨pi, ((phrase.length - j : Nat) : Int), true, phrase.take (phrase.length - j)⟩ := by
  induction j with
  | zero =>
    obtain ⟨m, hm⟩ : ∃ m, phrase.length = m + 1 := ⟨phrase.length - 1, by omega⟩
    have := ticks_typing phrases speed pause pi phrase text hphr m (by omega)
    simp only [Nat.add_zero, Nat.sub_zero]
    rw [hm, this]
    simp [hm]
  | succ j ih =>
    have ih1 := ih (by omega)
    obtain ⟨m, hm⟩ : ∃ m, phrase.length - j = m + 1 := ⟨phrase.length - j - 1, by omega⟩
    rw [← Nat.add_assoc, ticks_succ _ _ _ _ _ _ ih1, hm]
    have hcast : (((m + 1 : Nat)) : Int) = (m : Int) + 1 := by push_cast; rfl
    rw [hcast, tick_deleting phrases speed pause pi phrase _ hphr m (by omega)]
    have hm0 : m ≠ 0 := by omega
    have hm1 : phrase.length - (j + 1) = m := by omega
    simp [hm0, hm1]

/-- The last tick of a cycle empties the text and moves on to the next phrase. -/
theorem ticks_cycle (phrases : List JSString) (speed pause : ℚ) (pi : Nat)
    (phrase text : JSString) (hphr : phrases[pi]? = some phrase) (hn : phrase ≠ []) :
    ticks phrases speed pause (2 * phrase.length) (startOf pi text) =
      .ok ⟨(pi + 1) % phrases.length, 0, false, []⟩ := by
  have hpos : 0 < phrase.length := List.length_pos.mpr hn
  have h1 := ticks_deleting phrases speed pause pi phrase text hphr (phrase.length - 1)
    (by omega)
  have e1 : 2 * phrase.length = phrase.length + (phrase.length - 1) + 1 := by omega
  have e2 : phrase.length - (phrase.length - 1) = 1 := by omega
  rw [e2] at h1
  rw [e1, ticks_succ _ _ _ _ _ _ h1]
  have := tick_deleting phrases speed pause pi phrase (phrase.take 1) hphr 0 hpos
  simpa using this

/-! ## The remaining claims -/

/-- C7, as stated, fails: starting from `initParticles` on an 800×600 viewport
with every `Math.random()` draw equal to `7/8` (so each particle is created at
`(700, 525)`, inside the surface), a resize to 400×300 leaves the particles
outside `[-10, 410] × [-10, 310]`. -/
theorem inBand_fails_after_resize :
    (∀ k : Nat, (0 : ℚ) ≤ (fun _ => 7 / 8 : Nat → ℚ) k ∧ (fun _ => 7 / 8 : Nat → ℚ) k < 1) ∧
      ∃ out s, initParticles (.canvas true) 800 600 (fun _ => 7 / 8) = .ok out ∧
        out.renderer = some s ∧ ¬ (run s [Event.resize 400 300]).InBand := by
  refine ⟨fun _ => ⟨by norm_num, by norm_num⟩, _, _, rfl, rfl, ?_⟩
  intro h
  have h1 := h (mkParticle 800 600 (fun _ => 7 / 8) 0) (by
    simp [run, step, resize, initRenderer, mkParticles, count]
    exact ⟨0, by norm_num, rfl⟩)
  simp [Particle.InBand, run, step, resize, mkParticle, rand] at h1
  norm_num at h1

/-- C7, amended: in every renderer state reached from `initParticles` (random
draws in `[0,1)`) by a sequence of per-frame advances and resize events whose
last event is not a resize (the initial state, or a state right after a
per-frame advance), every particle lies within `[-10, w+10] × [-10, h+10]` for
the renderer's current dimensions. -/
theorem inBand_unless_just_resized (w h : Nat) (rnd : Nat → ℚ) (es : List Event)
    (hr : ∀ k, 0 ≤ rnd k ∧ rnd k < 1)
    (hes : ∀ iw ih, es.getLast? ≠ some (Event.resize iw ih)) :
    ∃ out s, initParticles (.canvas true) w h rnd = .ok out ∧ out.renderer = some s ∧
      (run s es).InBand := by
  refine ⟨_, _, rfl, rfl, ?_⟩
  rcases List.eq_nil_or_concat es with rfl | ⟨fs, e, rfl⟩
  · exact initRenderer_inBand w h rnd hr
  · rw [List.concat_eq_append] at hes ⊢
    rw [run_append]
    cases e with
    | frame => exact draw_inBand _
    | resize iw ih => exact absurd (by simp) (hes iw ih)

theorem inBand_unless_just_resized_witness :
    (∀ k : Nat, (0 : ℚ) ≤ (fun _ => 7 / 8 : Nat → ℚ) k ∧ (fun _ => 7 / 8 : Nat → ℚ) k < 1) ∧
      (∀ iw ih, [Event.frame, Event.resize 400 300, Event.frame].getLast?
          ≠ some (Event.resize iw ih)) ∧
      ∃ out s, initParticles (.canvas true) 800 600 (fun _ => 7 / 8) = .ok out ∧
        out.renderer = some s ∧
        (run s [Event.frame, Event.resize 400 300, Event.frame]).InBand :=
  ⟨fun _ => ⟨by norm_num, by norm_num⟩, fun _ _ h => by simp at h,
    inBand_unless_just_resized 800 600 (fun _ => 7 / 8)
      [Event.frame, Event.resize 400 300, Event.frame]
      (fun _ => ⟨by norm_num, by norm_num⟩) (fun _ _ h => by simp at h)⟩

/-- C10: for a non-empty list of non-empty phrases, the `tick` machine started
at `(pi, ii = 0, deleting = false)` on a phrase of length `n` shows after its
`k`-th tick the first `k` code units for `1 ≤ k ≤ n` and the first `2n - k` for
`n < k ≤ 2n`, keeps `0 ≤ ii ≤ n` throughout, and after exactly `2n` ticks is in
state `((pi + 1) % phrases.length, ii = 0, deleting = false)`. -/
theorem typeLoop_phrase_cycle (phrases : List JSString) (speed pause : ℚ) (pi : Nat)
    (phrase text : JSString) (_hne : phrases ≠ []) (hall : ∀ p ∈ phrases, p ≠ [])
    (hphr : phrases[pi]? = some phrase) :
    (∀ k, k ≤ 2 * phrase.length →
      ∃ s, ticks phrases speed pause k (startOf pi text) = .ok s ∧
        0 ≤ s.ii ∧ s.ii ≤ (phrase.length : Int) ∧
        (1 ≤ k → k ≤ phrase.length → s.text = phrase.take k) ∧
        (phrase.length < k → s.text = phrase.take (2 * phrase.length - k))) ∧
      ∃ s, ticks phrases speed pause (2 * phrase.length) (startOf pi text) = .ok s ∧
        s.pi = (pi + 1) % phrases.length ∧ s.ii = 0 ∧ s.deleting = false := by
  have hn : phrase ≠ [] := hall phrase (List.getElem?_mem hphr)
  have hpos : 0 < phrase.length := List.length_pos.mpr hn
  have hend := ticks_cycle phrases speed pause pi phrase text hphr hn
  refine ⟨?_, _, hend, rfl, rfl, rfl⟩
  intro k hk
  rcases Nat.eq_zero_or_pos k with rfl | hk0
  · exact ⟨_, rfl, le_refl _, by simp [startOf], fun h => absurd h (by omega),
      fun h => absurd h (by omega)⟩
  rcases Nat.lt_or_ge phrase.length k with hgt | hle
  · rcases Nat.lt_or_ge k (2 * phrase.length) with hlt | hge
    · have h := ticks_deleting phrases speed pause pi phrase text hphr (k - phrase.length)
        (by omega)
      have e1 : phrase.length + (k - phrase.length) = k := by omega
      have e2 : phrase.length - (k - phrase.length) = 2 * phrase.length - k := by omega
      rw [e1, e2] at h
      refine ⟨_, h, ?_, ?_, fun _ h2 => absurd h2 (by omega), fun _ => rfl⟩
      · show (0 : Int) ≤ ((2 * phrase.length - k : Nat) : Int)
        omega
      · show ((2 * phrase.length - k : Nat) : Int) ≤ (phrase.length : Int)
        omega
    · have e : k = 2 * phrase.length := by omega
      subst e
      refine ⟨_, hend, le_refl _, ?_, fun _ h2 => absurd h2 (by omega), fun _ => ?_⟩
      · show (0 : Int) ≤ (phrase.length : Int)
        omega
      · simp
  · obtain ⟨m, rfl⟩ : ∃ m, k = m + 1 := ⟨k - 1, by omega⟩
    have h := ticks_typing phrases speed pause pi phrase text hphr m (by omega)
    refine ⟨_, h, ?_, ?_, fun _ _ => rfl, fun h2 => absurd h2 (by omega)⟩
    · show (0 : Int) ≤ ((m + 1 : Nat) : Int)
      omega
    · show ((m + 1 : Nat) : Int) ≤ (phrase.length : Int)
      omega

theorem typeLoop_phrase_cycle_witness :
    ([[72, 105], [33]] : List JSString) ≠ [] ∧
      (∀ p ∈ ([[72, 105], [33]] : List JSString), p ≠ []) ∧
      ([[72, 105], [33]] : List JSString)[0]? = some [72, 105] ∧
      ((∀ k, k ≤ 2 * ([72, 105] : JSString).length →
        ∃ s, ticks [[72, 105], [33]] 90 900 k (startOf 0 []) = .ok s ∧
          0 ≤ s.ii ∧ s.ii ≤ (([72, 105] : JSString).length : Int) ∧
          (1 ≤ k → k ≤ ([72, 105] : JSString).length →
            s.text = ([72, 105] : JSString).take k) ∧
          (([72, 105] : JSString).length < k →
            s.text = ([72, 105] : JSString).take (2 * ([72, 105] : JSString).length - k))) ∧
        ∃ s, ticks [[72, 105], [33]] 90 900 (2 * ([72, 105] : JSString).length)
            (startOf 0 []) = .ok s ∧
          s.pi = (0 + 1) % ([[72, 105], [33]] : List JSString).length ∧ s.ii = 0 ∧
          s.deleting = false) :=
  ⟨by decide, by decide, rfl,
    typeLoop_phrase_cycle [[72, 105], [33]] 90 900 0 [72, 105] [] (by decide) (by decide) rfl⟩

end Adarsgd
